import Mathlib

/-
Verification of the core logic of glance (src/src-tauri/src/main.rs).

The embedding models Rust strings (`&str` / `String`) as `List Char` and keeps
the source's names where Lean allows it.  Pure functions of the source
(`parse_heading`, `extract_sections`) are translated directly; the stateful
parts (the socket server's request handler, the file-watcher loop, the CLI
entry point) are translated as explicit state-passing functions over an
abstract file system, and the lock discipline of `AppState` is modelled as an
interleaving semantics over the atomic lock-protected accesses.
-/

/-- Characters of a Rust string; the embedding works on character lists. -/
abbrev RStr := List Char

/-- Model of Rust `char::is_whitespace` restricted to the ASCII whitespace
characters (space, tab, newline, carriage return), which are the only
whitespace characters the claims exercise. -/
def isWsChar (c : Char) : Bool := c = ' ' || c = '\t' || c = '\n' || c = '\r'

/-- Model of `str::trim_start`. -/
def trimStartL (s : RStr) : RStr := s.dropWhile isWsChar

/-- Model of `str::trim_end`. -/
def trimEndL (s : RStr) : RStr := (s.reverse.dropWhile isWsChar).reverse

/-- Model of `str::trim`: leading and trailing whitespace removed. -/
def trimL (s : RStr) : RStr := trimEndL (trimStartL s)

/-- Model of Rust `str::trim_end_matches('#')`: remove every trailing hash mark. -/
def dropTrailingHashes (s : RStr) : RStr := (s.reverse.dropWhile (fun c => c = '#')).reverse

/-- Split a character list at every occurrence of `c` (model of `str::split`);
always returns at least one piece. -/
def splitChar (c : Char) : RStr → List RStr
  | [] => [[]]
  | x :: xs =>
    let rest := splitChar c xs
    if x = c then [] :: rest
    else
      match rest with
      | [] => [[x]]
      | y :: ys => (x :: y) :: ys

/-- Remove one trailing carriage return, as Rust `str::lines` does per line. -/
def stripCR (l : RStr) : RStr := if l.getLast? = some '\r' then l.dropLast else l

/-- Model of Rust `str::lines`: split at newlines, with the final line ending
optional, and a trailing carriage return removed from each line. -/
def rustLinesL (s : RStr) : List RStr :=
  if s = [] then []
  else
    let parts := splitChar '\n' s
    let parts := if s.getLast? = some '\n' then parts.dropLast else parts
    parts.map stripCR

/-- Source `parse_heading` (main.rs lines 608-625): trim the line, count leading
hash marks; a heading needs 1 to 6 of them followed by a space or end of line;
the title is the rest trimmed, with trailing hash marks removed, trimmed again.
The heading level is `u8` in the source; it stays in 0..=6 so `Nat` is exact. -/
def parse_heading (line : RStr) : Option (Nat × RStr) :=
  let trimmed := trimL line
  let hash_count := (trimmed.takeWhile (fun c => c = '#')).length
  if 1 ≤ hash_count ∧ hash_count ≤ 6 then
    let rest := trimmed.drop hash_count
    if rest.head? = some ' ' ∨ rest = [] then
      some (hash_count, trimL (dropTrailingHashes (trimL rest)))
    else none
  else none

/-- Source struct `MarkdownSection` (main.rs lines 106-117): `content` is the
joined body text, `start_line` the zero-based offset of the section's first line. -/
structure MarkdownSection where
  level : Nat
  title : RStr
  content : RStr
  start_line : Nat
deriving DecidableEq, Repr

/-- A section during the scan phase, with its body kept as the line span
`lines[start_line..end_line]` that the source joins with a newline at the end
of `extract_sections`. -/
structure SectionLines where
  level : Nat
  title : RStr
  body : List RStr
  start_line : Nat
deriving DecidableEq, Repr

/-- The fence test of `extract_sections` (main.rs line 547): the raw line —
not the trimmed line — must start with three backquotes or three tildes. -/
def isFenceLine (l : RStr) : Bool :=
  l.take 3 = "```".toList || l.take 3 = "~~~".toList

/-- The line scan of `extract_sections` (main.rs lines 545-565): walk the lines
with their indices, toggling the in-code-block flag on fence lines, skipping
fence lines and lines inside a fenced block, and recording
(level, title, line index) for every line `parse_heading` accepts. -/
def scanHeadingsAux : List RStr → Nat → Bool → List (Nat × RStr × Nat)
  | [], _, _ => []
  | l :: ls, i, inCode =>
    if isFenceLine l then scanHeadingsAux ls (i + 1) (!inCode)
    else if inCode then scanHeadingsAux ls (i + 1) inCode
    else
      match parse_heading l with
      | some (lev, t) => (lev, t, i) :: scanHeadingsAux ls (i + 1) inCode
      | none => scanHeadingsAux ls (i + 1) inCode

/-- The heading scan started at line 0 outside any code block. -/
def scanHeadings (lines : List RStr) : List (Nat × RStr × Nat) :=
  scanHeadingsAux lines 0 false

/-- The span `lines[a..b]` of the source. -/
def sliceL (lines : List RStr) (a b : Nat) : List RStr := (lines.drop a).take (b - a)

/-- Model of `Vec<&str>::join("\n")`. -/
def joinNL (ls : List RStr) : RStr := List.intercalate ['\n'] ls

/-- The body-filling loop of `extract_sections` (main.rs lines 567-577): each
section's body is the span from its start line to the next section's start
line, or to the end of the document for the last section. -/
def fillBodies (lines : List RStr) : List (Nat × RStr × Nat) → List SectionLines
  | [] => []
  | [(lev, t, s)] => [⟨lev, t, sliceL lines s lines.length, s⟩]
  | (lev, t, s) :: p :: rest =>
    ⟨lev, t, sliceL lines s p.2.2, s⟩ :: fillBodies lines (p :: rest)

/-- The introduction step of `extract_sections` (main.rs lines 579-593): if
sections exist and the first one does not start at line 0, and the joined
pre-heading span is not blank after trimming, prepend a level-0
"Introduction" section covering that span. -/
def introStep (lines : List RStr) : List SectionLines → List SectionLines
  | [] => []
  | first :: rest =>
    if 0 < first.start_line ∧ trimL (joinNL (sliceL lines 0 first.start_line)) ≠ [] then
      ⟨0, "Introduction".toList, sliceL lines 0 first.start_line, 0⟩ :: first :: rest
    else first :: rest

/-- The Sectioner at line granularity: scan, fill bodies, maybe prepend the
introduction.  Empty result exactly when the scan found no heading. -/
def extractSectionsL (lines : List RStr) : List SectionLines :=
  introStep lines (fillBodies lines (scanHeadings lines))

/-- Source `extract_sections` (main.rs lines 539-606).  The bodies are joined
with newlines; if no heading was found a single level-0 "Document" section
holding the whole raw input is returned. -/
def extract_sections (content : RStr) : List MarkdownSection :=
  let lines := rustLinesL content
  let secs := extractSectionsL lines
  if secs = [] then [⟨0, "Document".toList, content, 0⟩]
  else secs.map (fun s => ⟨s.level, s.title, joinNL s.body, s.start_line⟩)

/-- The pre-heading span is kept by `extract_sections`: either there is no
first heading, or it starts at line 0, or the span before it is not blank
(`introStep` silently drops a blank span, see the counterexample below). -/
def introOK (lines : List RStr) : Bool :=
  match scanHeadings lines with
  | [] => true
  | (_, _, s) :: _ => decide (s = 0 ∨ trimL (joinNL (sliceL lines 0 s)) ≠ [])

/-- The line spans underlying the bodies of `extract_sections content`: the
scan-phase bodies when a heading exists, the whole line list for the single
Document section (whose body is the raw input). -/
def sectionLineBodies (content : RStr) : List (List RStr) :=
  let lines := rustLinesL content
  let secs := extractSectionsL lines
  if secs = [] then [lines] else secs.map SectionLines.body

/-- Threshold for large file mode, 500 KiB (main.rs line 19). -/
def LARGE_FILE_THRESHOLD : Nat := 500 * 1024

/-- Source struct `AppState` (main.rs lines 530-537), with the four data fields
each guarded in the source by its own `Mutex`.  The `watcher_control` channel
is modelled separately (see `watchCycle`); `no_truncate` is the fifth field. -/
structure AppState where
  content : RStr
  file_path : RStr
  file_name : RStr
  is_large_file : Bool
  no_truncate : Bool
deriving DecidableEq, Repr

/-- Abstract file system as seen through the `std::fs` calls the source makes:
existence test, canonicalization (`None` on failure), whole-file read
(`None` on any I/O error), and metadata byte size (the source's
`unwrap_or(0)` is part of the abstraction). -/
structure FileSys where
  pathExists : RStr → Bool
  canonicalize : RStr → Option RStr
  readToString : RStr → Option RStr
  fileSize : RStr → Nat

/-- Components of a path split at the separator. -/
def splitSlash (p : RStr) : List RStr := splitChar '/' p

/-- Model of `Path::file_name` for ordinary forward-slash paths: the last
non-empty component, none when it is a parent or current-directory marker. -/
def fileNameOf (p : RStr) : Option RStr :=
  match ((splitSlash p).filter (fun c => c ≠ [])).getLast? with
  | none => none
  | some comp =>
    if comp = ".".toList || comp = "..".toList then none else some comp

/-- Model of `Path::extension`: the part of the file name after its last dot;
none when there is no file name, no dot, or only a leading dot. -/
def extensionOf (p : RStr) : Option RStr :=
  match fileNameOf p with
  | none => none
  | some f =>
    let extRev := f.reverse.takeWhile (fun c => c ≠ '.')
    if extRev.length = f.length then none
    else if extRev.length + 1 = f.length then none
    else some extRev.reverse

/-- Model of `str::to_lowercase` for the ASCII extensions involved. -/
def toLowerStr (s : RStr) : RStr := s.map Char.toLower

/-- The extension test of the socket server (main.rs lines 281-294): the
lowercased extension must be one of md, markdown, puml, plantuml. -/
def allowedExtension (p : RStr) : Bool :=
  let ext := (extensionOf p).map toLowerStr
  ext = some "md".toList || ext = some "markdown".toList ||
    ext = some "puml".toList || ext = some "plantuml".toList

/-- How the socket server disposed of one message: every constructor except
`updated` corresponds to a `continue` (or silently skipped block) in the
source that drops the message. -/
inductive SockOutcome
  | notFound
  | badExtension
  | canonFailed
  | readFailed
  | emptyFile
  | updated
deriving DecidableEq, Repr

/-- Handling of one forwarded path by the socket server (main.rs lines
268-373): validate existence, extension and canonicalization, read the file,
reject blank content, and only then write the four state fields (content,
path, display name, large-file flag) from the canonical path.  The window and
watcher-retarget side effects carry no state change to `AppState`. -/
def handleSocketMessage (fsys : FileSys) (st : AppState) (msg : RStr) :
    AppState × SockOutcome :=
  if !(fsys.pathExists msg) then (st, .notFound)
  else if !(allowedExtension msg) then (st, .badExtension)
  else
    match fsys.canonicalize msg with
    | none => (st, .canonFailed)
    | some cpath =>
      match fsys.readToString cpath with
      | none => (st, .readFailed)
      | some newContent =>
        if trimL newContent = [] then (st, .emptyFile)
        else
          let file_size := fsys.fileSize cpath
          let is_large_file :=
            decide (file_size > LARGE_FILE_THRESHOLD) && !st.no_truncate
          let new_file_name := (fileNameOf cpath).getD "Glance".toList
          ({ st with
              content := newContent
              file_path := cpath
              file_name := new_file_name
              is_large_file := is_large_file }, .updated)

/-- The socket server's accept loop over a sequence of forwarded messages:
each message is handled and the loop continues with the resulting state. -/
def serverRun (fsys : FileSys) : AppState → List RStr → AppState
  | st, [] => st
  | st, msg :: msgs => serverRun fsys (handleSocketMessage fsys st msg).1 msgs

/-- One handled modify-or-create event of the watcher loop (main.rs lines
767-797): re-read the path currently stored in shared state — not the path
the watcher was subscribed to, passed here as `current_path` and unused
exactly as in the source — and update only the content field when the read
succeeds and the content is not blank, emitting a change notification
(the returned flag); otherwise leave the state unchanged and stay silent. -/
def watchCycle (fsys : FileSys) (current_path : RStr) (st : AppState) :
    AppState × Bool :=
  let watched_path := st.file_path
  match fsys.readToString watched_path with
  | some newContent =>
    if !(trimL newContent = []) then ({ st with content := newContent }, true)
    else (st, false)
  | none => (st, false)

/-- The watcher loop over a sequence of events, each seeing a possibly changed
file system snapshot; the loop never stops on a failed cycle. -/
def watchRun (current_path : RStr) : AppState → List FileSys → AppState
  | st, [] => st
  | st, f :: fs => watchRun current_path (watchCycle f current_path st).1 fs

/-- Environment of a CLI launch: the file system, the working directory used
to absolutize relative paths, whether a running daemon accepted the forwarded
message (`send_to_daemon`), and the `no_truncate` setting of the config file. -/
structure CliEnv where
  fsys : FileSys
  cwd : RStr
  daemonReceives : Bool
  configNoTruncate : Bool

/-- What a CLI launch did (main.rs lines 119-223): the exit constructors
correspond to `process::exit` calls; `startDaemon` carries the tuple handed
to `run_app`. -/
inductive CliOutcome
  | helpExit
  | versionExit
  | forwardedExit
  | notFoundExit
  | readErrExit
  | emptyExit
  | startDaemon (file_path : RStr) (file_name : RStr) (content : RStr)
      (is_large_file : Bool)
deriving DecidableEq, Repr

/-- The process exit code of each outcome; `none` when the process keeps
running as the daemon. -/
def cliExitCode : CliOutcome → Option Nat
  | .helpExit => some 0
  | .versionExit => some 0
  | .forwardedExit => some 0
  | .notFoundExit => some 1
  | .readErrExit => some 1
  | .emptyExit => some 1
  | .startDaemon _ _ _ _ => none

/-- Whether the outcome printed to the error stream (`eprintln!`). -/
def printsToErrorStream : CliOutcome → Bool
  | .notFoundExit => true
  | .readErrExit => true
  | .emptyExit => true
  | _ => false

/-- Whether daemon state was created (`run_app` reached). -/
def isStartDaemon : CliOutcome → Bool
  | .startDaemon _ _ _ _ => true
  | _ => false

/-- Model of `Path::is_relative` on Unix: no leading separator. -/
def isRelativePath (p : RStr) : Bool := !(p.take 1 = "/".toList)

/-- Model of `current_dir().join(path)` for a relative path (main.rs lines
154-160); the model's working directory is always available. -/
def absolutize (env : CliEnv) (p : RStr) : RStr :=
  if isRelativePath p then env.cwd ++ '/' :: p else p

/-- The argument filter of main.rs line 141: the first argument after the
program name that does not start with a double dash. -/
def notFlagArg (a : RStr) : Bool := !(a.take 2 = "--".toList)

/-- The file-loading part of `main` (main.rs lines 137-223): find the file
argument, absolutize it, exit on a missing path, forward to a running daemon,
then read, exit on read failure or blank content, and otherwise build the
`run_app` tuple from the canonical path, file name and size class. -/
def cliLoad (env : CliEnv) (args : List RStr) : CliOutcome :=
  let no_truncate :=
    args.any (fun a => a = "--no-truncate".toList) || env.configNoTruncate
  match (args.drop 1).find? notFlagArg with
  | none => .startDaemon [] "Glance".toList [] false
  | some pathArg =>
    let file_path := absolutize env pathArg
    if !(env.fsys.pathExists file_path) then .notFoundExit
    else if env.daemonReceives then .forwardedExit
    else
      let file_size := env.fsys.fileSize file_path
      match env.fsys.readToString file_path with
      | none => .readErrExit
      | some content =>
        if trimL content = [] then .emptyExit
        else
          let is_large_file :=
            decide (file_size > LARGE_FILE_THRESHOLD) && !no_truncate
          let absolute_path := (env.fsys.canonicalize file_path).getD file_path
          let file_name := (fileNameOf file_path).getD "Glance".toList
          .startDaemon absolute_path file_name content is_large_file

/-- Source `main` (main.rs lines 119-135 then 137-223): `--help`/`-h` and
`--version`/`-v` in the first argument position exit before any other logic;
everything else goes through the load path. -/
def cliMain (env : CliEnv) (args : List RStr) : CliOutcome :=
  match args[1]? with
  | some a =>
    if a = "--help".toList || a = "-h".toList then .helpExit
    else if a = "--version".toList || a = "-v".toList then .versionExit
    else cliLoad env args
  | none => cliLoad env args

/-- The atomic lock-protected accesses in a run of one state update
(`open_dropped_file` or the socket server's update, main.rs lines 324-345 and
477-496) against one reader (`get_markdown_content`, main.rs lines 383-391).
The writer holds the content mutex only while writing content (`wC`) and the
path mutex only while writing the path (`wP`), in that order; the reader
acquires the content mutex (`rC`) and then the path mutex (`rP`) and holds
both until it returns. -/
inductive LockEv
  | wC
  | wP
  | rC
  | rP
deriving DecidableEq, Repr

/-- The content/path pair of Document State relevant to the atomicity claim. -/
structure PairState where
  content : RStr
  path : RStr
deriving DecidableEq, Repr

/-- Effect of one atomic access: writes install the new values, reads record
a snapshot of the field read. -/
def lockStep (newV : PairState) :
    LockEv → PairState × (Option RStr × Option RStr) →
      PairState × (Option RStr × Option RStr)
  | .wC, (s, obs) => ({ s with content := newV.content }, obs)
  | .wP, (s, obs) => ({ s with path := newV.path }, obs)
  | .rC, (s, (_, op)) => (s, (some s.content, op))
  | .rP, (s, (oc, _)) => (s, (oc, some s.path))

/-- The pair the reader observed after a schedule runs from the initial state. -/
def runSched (init newV : PairState) (sched : List LockEv) :
    Option RStr × Option RStr :=
  (sched.foldl (fun acc e => lockStep newV e acc) (init, (none, none))).2

/-- Position of an event in a schedule. -/
def evIndex (e : LockEv) (sched : List LockEv) : Nat := sched.indexOf e

/-- A schedule is an interleaving of the writer's two critical sections with
the reader's two acquisitions (each of the four events exactly once) that
respects program order (`wC` before `wP`, `rC` before `rP`) and the mutexes:
the reader holds the content mutex from `rC` until it returns (after `rP`),
so the writer's `wC` is either before `rC` or after `rP`; the path mutex is
free until `rP`, so `wP` is unconstrained beyond program order. -/
def schedOK (sched : List LockEv) : Bool :=
  sched.length = 4 &&
  sched.count LockEv.wC = 1 && sched.count LockEv.wP = 1 &&
  sched.count LockEv.rC = 1 && sched.count LockEv.rP = 1 &&
  decide (evIndex LockEv.wC sched < evIndex LockEv.wP sched) &&
  decide (evIndex LockEv.rC sched < evIndex LockEv.rP sched) &&
  (decide (evIndex LockEv.wC sched < evIndex LockEv.rC sched) ||
    decide (evIndex LockEv.rP sched < evIndex LockEv.wC sched))

/-- A concrete two-file file system used by the witnesses: an existing,
readable, non-blank markdown file and a second one. -/
def fsysDemo : FileSys where
  pathExists p := p = "/docs/notes.md".toList || p = "/docs/old.md".toList ||
    p = "/docs/plain.txt".toList
  canonicalize p :=
    if p = "/docs/notes.md".toList then some "/docs/notes.md".toList
    else if p = "/docs/old.md".toList then some "/docs/old.md".toList
    else if p = "/docs/plain.txt".toList then some "/docs/plain.txt".toList
    else none
  readToString p :=
    if p = "/docs/notes.md".toList then some "# hi\nbody".toList
    else if p = "/docs/old.md".toList then some "old text".toList
    else if p = "/docs/plain.txt".toList then some "text".toList
    else none
  fileSize _ := 42

/-- A concrete daemon state open on the old file, used by the witnesses. -/
def stDemo : AppState :=
  ⟨"old text".toList, "/docs/old.md".toList, "old.md".toList, false, false⟩

/-- A concrete CLI environment with no running daemon, used by the witnesses. -/
def envDemo : CliEnv := ⟨fsysDemo, "/home/user".toList, false, false⟩

example : parse_heading "# A".toList = some (1, "A".toList) := by decide
example : parse_heading "  ## Hello ##  ".toList = some (2, "Hello".toList) := by decide
example : parse_heading "####### x".toList = none := by decide
example : parse_heading "#x".toList = none := by decide
example : parse_heading "##".toList = some (2, []) := by decide
example : parse_heading "# A# ".toList = some (1, "A".toList) := by decide
example :
    extract_sections "# A\nbody1\n## B\nbody2\n".toList =
      [⟨1, "A".toList, "# A\nbody1".toList, 0⟩,
       ⟨2, "B".toList, "## B\nbody2".toList, 2⟩] := by decide
example :
    extract_sections "intro\n# A\nbody\n".toList =
      [⟨0, "Introduction".toList, "intro".toList, 0⟩,
       ⟨1, "A".toList, "# A\nbody".toList, 1⟩] := by decide
example : extract_sections "".toList = [⟨0, "Document".toList, [], 0⟩] := by decide
example : extract_sections "x\ny".toList = [⟨0, "Document".toList, "x\ny".toList, 0⟩] := by decide

theorem dropWhile_eq_drop_takeWhile {α : Type} (p : α → Bool) (l : List α) :
    l.dropWhile p = l.drop (l.takeWhile p).length := by
  induction l with
  | nil => rfl
  | cons a l ih =>
    by_cases h : p a = true
    · simp [List.dropWhile_cons, List.takeWhile_cons, h, ih]
    · simp [List.dropWhile_cons, List.takeWhile_cons, h]

theorem dropWhile_idem {α : Type} (p : α → Bool) (l : List α) :
    (l.dropWhile p).dropWhile p = l.dropWhile p := by
  induction l with
  | nil => rfl
  | cons a l ih =>
    by_cases h : p a = true
    · simp [List.dropWhile_cons, h, ih]
    · simp [List.dropWhile_cons, h]

theorem dropWhile_take_of_fixed {α : Type} (p : α → Bool) (l : List α)
    (h : l.dropWhile p = l) (k : Nat) : (l.take k).dropWhile p = l.take k := by
  cases l with
  | nil => simp
  | cons a l =>
    have ha : p a = false := by
      by_cases hpa : p a = true
      · exfalso
        rw [List.dropWhile_cons, if_pos hpa] at h
        have hlen := congrArg List.length h
        rw [dropWhile_eq_drop_takeWhile, List.length_drop] at hlen
        simp only [List.length_cons] at hlen
        omega
      · simpa using hpa
    cases k with
    | zero => simp
    | succ k => simp [List.dropWhile_cons, ha]

theorem trimEndL_eq_take (l : RStr) :
    trimEndL l = l.take (l.length - (l.reverse.takeWhile isWsChar).length) := by
  unfold trimEndL
  rw [dropWhile_eq_drop_takeWhile, List.reverse_drop]
  simp

theorem dropTrailingHashes_eq_take (l : RStr) :
    dropTrailingHashes l =
      l.take (l.length - (l.reverse.takeWhile (fun c => c = '#')).length) := by
  unfold dropTrailingHashes
  rw [dropWhile_eq_drop_takeWhile, List.reverse_drop]
  simp

theorem trimStartL_trimL (s : RStr) : trimStartL (trimL s) = trimL s := by
  have h : trimL s = (trimStartL s).take
      ((trimStartL s).length - ((trimStartL s).reverse.takeWhile isWsChar).length) :=
    trimEndL_eq_take (trimStartL s)
  rw [h]
  exact dropWhile_take_of_fixed isWsChar (trimStartL s) (dropWhile_idem isWsChar s) _

theorem trimStartL_dropTrailingHashes_trimL (s : RStr) :
    trimStartL (dropTrailingHashes (trimL s)) = dropTrailingHashes (trimL s) := by
  rw [dropTrailingHashes_eq_take]
  exact dropWhile_take_of_fixed isWsChar (trimL s)
    (by simpa [trimStartL] using trimStartL_trimL s) _

theorem title_trim_collapse (r : RStr) :
    trimL (dropTrailingHashes (trimL r)) = trimEndL (dropTrailingHashes (trimL r)) := by
  show trimEndL (trimStartL (dropTrailingHashes (trimL r))) = _
  rw [trimStartL_dropTrailingHashes_trimL]

theorem takeWhile_hash_replicate (n : Nat) :
    (List.replicate n '#').takeWhile (fun c => c = '#') = List.replicate n '#' := by
  induction n with
  | zero => rfl
  | succ n ih => simp [List.replicate_succ, List.takeWhile_cons, ih]

theorem takeWhile_hash_eq_replicate (l : RStr) :
    l.takeWhile (fun c => c = '#') =
      List.replicate (l.takeWhile (fun c => c = '#')).length '#' := by
  apply List.eq_replicate_of_mem
  intro b hb
  have hmem := List.mem_takeWhile_imp hb
  simpa using hmem

theorem parse_heading_eq (line : RStr) :
    parse_heading line =
      (if 1 ≤ (List.takeWhile (fun c => c = '#') (trimL line)).length ∧
          (List.takeWhile (fun c => c = '#') (trimL line)).length ≤ 6 then
        if (List.drop (List.takeWhile (fun c => c = '#') (trimL line)).length
              (trimL line)).head? = some ' ' ∨
            List.drop (List.takeWhile (fun c => c = '#') (trimL line)).length (trimL line) = [] then
          some ((List.takeWhile (fun c => c = '#') (trimL line)).length,
            trimL (dropTrailingHashes (trimL (List.drop
              (List.takeWhile (fun c => c = '#') (trimL line)).length (trimL line)))))
        else none
      else none) := rfl

/-- C3: for every line L, `parse_heading` matches exactly when the trimmed line
is between 1 and 6 hash marks followed by a space or the end of the line; the
level is the hash count and the title is the remainder trimmed with trailing
hash runs and trailing whitespace stripped. -/
theorem parse_heading_spec (L : RStr) (n : Nat) (t : RStr) :
    parse_heading L = some (n, t) ↔
      1 ≤ n ∧ n ≤ 6 ∧
        ∃ r, trimL L = List.replicate n '#' ++ r ∧
          (r.head? = some ' ' ∨ r = []) ∧
          t = trimEndL (dropTrailingHashes (trimL r)) := by
  constructor
  · intro h
    rw [parse_heading_eq] at h
    by_cases h16 : 1 ≤ (List.takeWhile (fun c => c = '#') (trimL L)).length ∧
        (List.takeWhile (fun c => c = '#') (trimL L)).length ≤ 6
    · rw [if_pos h16] at h
      by_cases hr : (List.drop (List.takeWhile (fun c => c = '#') (trimL L)).length
            (trimL L)).head? = some ' ' ∨
          List.drop (List.takeWhile (fun c => c = '#') (trimL L)).length (trimL L) = []
      · rw [if_pos hr] at h
        have hn : (List.takeWhile (fun c => c = '#') (trimL L)).length = n := by
          have h' := h
          simp only [Option.some.injEq, Prod.mk.injEq] at h'
          exact h'.1
        have ht : t = trimL (dropTrailingHashes
            (trimL (List.drop (List.takeWhile (fun c => c = '#') (trimL L)).length (trimL L)))) := by
          have h' := h
          simp only [Option.some.injEq, Prod.mk.injEq] at h'
          exact h'.2.symm
        refine ⟨hn ▸ h16.1, hn ▸ h16.2,
          List.drop (List.takeWhile (fun c => c = '#') (trimL L)).length (trimL L), ?_, ?_, ?_⟩
        · conv_lhs => rw [← List.takeWhile_append_dropWhile (fun c => c = '#') (trimL L)]
          rw [dropWhile_eq_drop_takeWhile]
          congr 1
          rw [← hn]
          exact takeWhile_hash_eq_replicate (trimL L)
        · exact hr
        · rw [ht, title_trim_collapse]
      · rw [if_neg hr] at h
        exact absurd h (by simp)
    · rw [if_neg h16] at h
      exact absurd h (by simp)
  · rintro ⟨h1, h6, r, htrim, hr, ht⟩
    have htw : (trimL L).takeWhile (fun c => c = '#') = List.replicate n '#' := by
      rw [htrim, List.takeWhile_append, takeWhile_hash_replicate]
      have hwr : r.takeWhile (fun c => c = '#') = [] := by
        rcases hr with hsp | hnil
        · cases r with
          | nil => rfl
          | cons a r' =>
            simp only [List.head?_cons, Option.some.injEq] at hsp
            simp [List.takeWhile_cons, hsp]
        · simp [hnil]
      simp [hwr]
    have hlen : (List.takeWhile (fun c => c = '#') (trimL L)).length = n := by
      rw [htw, List.length_replicate]
    have hdrop : List.drop n (trimL L) = r := by
      rw [htrim]
      have hdl := List.drop_left (List.replicate n '#') r
      rw [List.length_replicate] at hdl
      exact hdl
    rw [parse_heading_eq, hlen, if_pos ⟨h1, h6⟩, hdrop, if_pos hr, title_trim_collapse, ht]

/-- Witness for C3 at a concrete line: two hash marks, padded title, trailing
hash run. -/
theorem parse_heading_spec_witness :
    parse_heading "  ## Hello ##  ".toList = some (2, "Hello".toList) :=
  (parse_heading_spec "  ## Hello ##  ".toList 2 "Hello".toList).mpr
    ⟨by decide, by decide, " Hello ##".toList, by decide, by decide, by decide⟩

theorem scanHeadingsAux_mem (ls : List RStr) :
    ∀ (i : Nat) (b : Bool) (x : Nat × RStr × Nat), x ∈ scanHeadingsAux ls i b →
      ∃ k, k < ls.length ∧ x.2.2 = i + k ∧ isFenceLine (ls.getD k []) = false ∧
        (ls.take k).countP isFenceLine % 2 = (if b then 1 else 0) := by
  induction ls with
  | nil =>
    intro i b x hx
    simp [scanHeadingsAux] at hx
  | cons l ls ih =>
    intro i b x hx
    simp only [scanHeadingsAux] at hx
    by_cases hf : isFenceLine l = true
    · rw [if_pos hf] at hx
      obtain ⟨k, hk, hidx, hfk, hcnt⟩ := ih (i + 1) (!b) x hx
      refine ⟨k + 1, by simpa using hk, by omega, by simpa using hfk, ?_⟩
      rw [List.take_succ_cons, List.countP_cons, hf]
      cases b <;> simp_all <;> omega
    · rw [if_neg hf] at hx
      have hfl : isFenceLine l = false := by simpa using hf
      by_cases hb : b = true
      · rw [if_pos hb] at hx
        obtain ⟨k, hk, hidx, hfk, hcnt⟩ := ih (i + 1) b x hx
        refine ⟨k + 1, by simpa using hk, by omega, by simpa using hfk, ?_⟩
        rw [List.take_succ_cons, List.countP_cons, hfl]
        simpa using hcnt
      · rw [if_neg hb] at hx
        have hb' : b = false := by simpa using hb
        cases hph : parse_heading l with
        | some p =>
          rw [hph] at hx
          rcases List.mem_cons.mp hx with hhead | htail
          · refine ⟨0, by simp, by simp [hhead], by simpa using hfl, ?_⟩
            simp [hb']
          · obtain ⟨k, hk, hidx, hfk, hcnt⟩ := ih (i + 1) b x htail
            refine ⟨k + 1, by simpa using hk, by omega, by simpa using hfk, ?_⟩
            rw [List.take_succ_cons, List.countP_cons, hfl]
            simpa using hcnt
        | none =>
          rw [hph] at hx
          obtain ⟨k, hk, hidx, hfk, hcnt⟩ := ih (i + 1) b x hx
          refine ⟨k + 1, by simpa using hk, by omega, by simpa using hfk, ?_⟩
          rw [List.take_succ_cons, List.countP_cons, hfl]
          simpa using hcnt

/-- C4 counterexample: the source tests the raw line for a fence marker, so a
line whose trimmed content starts with a fence marker is not a delimiter, and
a heading following it still opens a section. -/
theorem fence_not_trimmed_counterexample :
    isFenceLine "  ```".toList = false ∧
    (trimL "  ```".toList).take 3 = "```".toList ∧
    (1, "A".toList, 1) ∈ scanHeadings (rustLinesL "  ```\n# A".toList) := by
  decide

/-- C4 amended: a line is a fence delimiter exactly when the raw, untrimmed
line starts with a fence marker; each such line toggles the in-block flag and
is itself excluded from heading detection, and no line inside a fenced block
(odd number of fence lines before it) opens a section. -/
theorem fence_scan_spec (lines : List RStr) (j : Nat) (hj : j < lines.length)
    (h : isFenceLine (lines.getD j []) = true ∨
      (lines.take j).countP isFenceLine % 2 = 1) :
    ∀ x ∈ scanHeadings lines, x.2.2 ≠ j := by
  intro x hx hEq
  obtain ⟨k, hk, hidx, hfk, hcnt⟩ := scanHeadingsAux_mem lines 0 false x hx
  have hkj : k = j := by omega
  subst hkj
  rcases h with hfence | hodd
  · rw [hfk] at hfence
    exact Bool.false_ne_true hfence
  · rw [hcnt] at hodd
    simp at hodd

/-- Witness for C4 amended: in a fenced block opened at line 0, the
heading-shaped line 1 opens no section. -/
theorem fence_scan_spec_witness :
    (1, "A".toList, 1) ∉
      scanHeadings ["```".toList, "# A".toList, "```".toList, "# B".toList] :=
  fun hmem =>
    fence_scan_spec ["```".toList, "# A".toList, "```".toList, "# B".toList] 1
      (by decide) (Or.inr (by decide)) (1, "A".toList, 1) hmem rfl

theorem scanHeadingsAux_nil_of_no_heading (ls : List RStr) :
    ∀ (i : Nat) (b : Bool), (∀ l ∈ ls, parse_heading l = none) →
      scanHeadingsAux ls i b = [] := by
  induction ls with
  | nil => intro i b _; rfl
  | cons l ls ih =>
    intro i b h
    have hl : parse_heading l = none := h l (by simp)
    have hls : ∀ l' ∈ ls, parse_heading l' = none := fun l' hl' => h l' (by simp [hl'])
    simp only [scanHeadingsAux]
    by_cases hf : isFenceLine l = true
    · rw [if_pos hf]; exact ih (i + 1) (!b) hls
    · rw [if_neg hf]
      by_cases hb : b = true
      · rw [if_pos hb]; exact ih (i + 1) b hls
      · rw [if_neg hb, hl]; exact ih (i + 1) b hls

/-- C6: if no line of the document is recognized as a heading by the heading
parser, `extract_sections` returns exactly one level-0 "Document" section at
line 0 whose body is the entire input. -/
theorem extract_sections_no_heading (content : RStr)
    (h : ∀ l ∈ rustLinesL content, parse_heading l = none) :
    extract_sections content = [⟨0, "Document".toList, content, 0⟩] := by
  have hscan : scanHeadings (rustLinesL content) = [] :=
    scanHeadingsAux_nil_of_no_heading (rustLinesL content) 0 false h
  simp [extract_sections, extractSectionsL, hscan, fillBodies, introStep]

/-- Witness for C6: a document with no heading lines, and the empty document
with its empty body. -/
theorem extract_sections_no_heading_witness :
    extract_sections "plain text\nno headings here\n".toList =
        [⟨0, "Document".toList, "plain text\nno headings here\n".toList, 0⟩] ∧
      extract_sections [] = [⟨0, "Document".toList, [], 0⟩] :=
  ⟨extract_sections_no_heading "plain text\nno headings here\n".toList (by decide),
    extract_sections_no_heading [] (by decide)⟩

theorem extract_sections_eq (content : RStr) :
    extract_sections content =
      if extractSectionsL (rustLinesL content) = [] then
        [⟨0, "Document".toList, content, 0⟩]
      else (extractSectionsL (rustLinesL content)).map
        (fun s => ⟨s.level, s.title, joinNL s.body, s.start_line⟩) := rfl

theorem fillBodies_cons_head (lines : List RStr) (lev : Nat) (t : RStr) (s : Nat)
    (rest : List (Nat × RStr × Nat)) :
    ∃ body, fillBodies lines ((lev, t, s) :: rest) =
      ⟨lev, t, body, s⟩ :: fillBodies lines rest := by
  cases rest with
  | nil => exact ⟨sliceL lines s lines.length, rfl⟩
  | cons p rs => exact ⟨sliceL lines s p.2.2, rfl⟩

/-- C7: if the first detected heading is at line s > 0 then `extract_sections`
prepends a level-0 "Introduction" section over lines 0..s exactly when that
span is non-blank after trimming; otherwise the first returned section is the
heading's own section at start line s. -/
theorem extract_sections_intro_spec (content : RStr) (n : Nat) (t : RStr) (s : Nat)
    (rest : List (Nat × RStr × Nat))
    (h1 : scanHeadings (rustLinesL content) = (n, t, s) :: rest)
    (h2 : 0 < s) :
    (trimL (joinNL (sliceL (rustLinesL content) 0 s)) ≠ [] →
      (extract_sections content).head? =
        some ⟨0, "Introduction".toList, joinNL (sliceL (rustLinesL content) 0 s), 0⟩ ∧
      ((extract_sections content).tail.head?.map MarkdownSection.start_line) = some s) ∧
    (trimL (joinNL (sliceL (rustLinesL content) 0 s)) = [] →
      ((extract_sections content).head?.map MarkdownSection.start_line) = some s ∧
      ((extract_sections content).head?.map MarkdownSection.level) = some n ∧
      ((extract_sections content).head?.map MarkdownSection.title) = some t) := by
  obtain ⟨body, hfb⟩ := fillBodies_cons_head (rustLinesL content) n t s rest
  have hL : extractSectionsL (rustLinesL content) =
      introStep (rustLinesL content)
        (⟨n, t, body, s⟩ :: fillBodies (rustLinesL content) rest) := by
    rw [extractSectionsL, h1, hfb]
  constructor
  · intro hnb
    have hIntro : introStep (rustLinesL content)
        (⟨n, t, body, s⟩ :: fillBodies (rustLinesL content) rest) =
        ⟨0, "Introduction".toList, sliceL (rustLinesL content) 0 s, 0⟩ ::
          ⟨n, t, body, s⟩ :: fillBodies (rustLinesL content) rest := by
      simp only [introStep]
      rw [if_pos ⟨h2, hnb⟩]
    rw [extract_sections_eq, hL, hIntro]
    simp
  · intro hb
    have hNoIntro : introStep (rustLinesL content)
        (⟨n, t, body, s⟩ :: fillBodies (rustLinesL content) rest) =
        ⟨n, t, body, s⟩ :: fillBodies (rustLinesL content) rest := by
      simp only [introStep]
      rw [if_neg (fun hc => hc.2 hb)]
    rw [extract_sections_eq, hL, hNoIntro]
    simp

/-- Witness for C7 at the spec's own scenario input. -/
theorem extract_sections_intro_spec_witness :
    (extract_sections "intro\n# A\nbody\n".toList).head? =
        some ⟨0, "Introduction".toList, "intro".toList, 0⟩ ∧
      ((extract_sections "intro\n# A\nbody\n".toList).tail.head?.map
        MarkdownSection.start_line) = some 1 := by
  have h := extract_sections_intro_spec "intro\n# A\nbody\n".toList 1 "A".toList 1 []
    (by decide) (by decide)
  exact h.1 (by decide)

theorem sliceL_to_end (lines : List RStr) (s : Nat) :
    sliceL lines s lines.length = lines.drop s := by
  unfold sliceL
  rw [← List.length_drop]
  exact List.take_length _

theorem sliceL_append_drop (lines : List RStr) (a b : Nat) (hab : a ≤ b) :
    sliceL lines a b ++ lines.drop b = lines.drop a := by
  unfold sliceL
  have h1 : lines.drop b = (lines.drop a).drop (b - a) := by
    rw [List.drop_drop]
    congr 1
    omega
  rw [h1, List.take_append_drop]

theorem fillBodies_starts (lines : List RStr) :
    ∀ hs : List (Nat × RStr × Nat),
      (fillBodies lines hs).map SectionLines.start_line = hs.map (fun p => p.2.2) := by
  intro hs
  induction hs with
  | nil => rfl
  | cons p hs ih =>
    obtain ⟨lev, t, s⟩ := p
    cases hs with
    | nil => rfl
    | cons q hs' =>
      simp only [fillBodies, List.map_cons, ih]

theorem fillBodies_start_ge (lines : List RStr) (hs : List (Nat × RStr × Nat)) (m : Nat)
    (h : ∀ p ∈ hs, m ≤ p.2.2) :
    ∀ y ∈ fillBodies lines hs, m ≤ y.start_line := by
  intro y hy
  have hmem : y.start_line ∈ hs.map (fun p => p.2.2) := by
    rw [← fillBodies_starts lines hs]
    exact List.mem_map_of_mem SectionLines.start_line hy
  rcases List.mem_map.mp hmem with ⟨a, ha, hay⟩
  have := h a ha
  omega

theorem fillBodies_join (lines : List RStr) :
    ∀ (hs : List (Nat × RStr × Nat)) (lev : Nat) (t : RStr) (s : Nat),
      List.Chain' (fun a b => a.2.2 ≤ b.2.2) ((lev, t, s) :: hs) →
      ((fillBodies lines ((lev, t, s) :: hs)).map SectionLines.body).flatten =
        lines.drop s := by
  intro hs
  induction hs with
  | nil =>
    intro lev t s _
    simp [fillBodies, sliceL_to_end]
  | cons q hs' ih =>
    intro lev t s hchain
    obtain ⟨lev2, t2, s2⟩ := q
    have hle : s ≤ s2 := (List.chain'_cons.mp hchain).1
    have hch' := (List.chain'_cons.mp hchain).2
    simp only [fillBodies, List.map_cons, List.flatten_cons]
    rw [ih lev2 t2 s2 hch']
    exact sliceL_append_drop lines s s2 hle

theorem scanHeadingsAux_pairwise (ls : List RStr) :
    ∀ (i : Nat) (b : Bool),
      List.Pairwise (fun x y : Nat × RStr × Nat => x.2.2 < y.2.2)
        (scanHeadingsAux ls i b) := by
  induction ls with
  | nil => intro i b; simp [scanHeadingsAux]
  | cons l ls ih =>
    intro i b
    simp only [scanHeadingsAux]
    by_cases hf : isFenceLine l = true
    · rw [if_pos hf]; exact ih (i + 1) (!b)
    · rw [if_neg hf]
      by_cases hb : b = true
      · rw [if_pos hb]; exact ih (i + 1) b
      · rw [if_neg hb]
        cases hph : parse_heading l with
        | none => exact ih (i + 1) b
        | some p =>
          refine List.Pairwise.cons ?_ (ih (i + 1) b)
          intro y hy
          obtain ⟨k, hk, hidx, _, _⟩ := scanHeadingsAux_mem ls (i + 1) b y hy
          show i < y.2.2
          omega

theorem fillBodies_overlap (lines : List RStr) :
    ∀ hs : List (Nat × RStr × Nat),
      List.Pairwise (fun x y : Nat × RStr × Nat => x.2.2 < y.2.2) hs →
      List.Pairwise
        (fun a b : SectionLines => a.start_line + a.body.length ≤ b.start_line)
        (fillBodies lines hs) := by
  intro hs
  induction hs with
  | nil => intro _; simp [fillBodies]
  | cons p hs ih =>
    intro hpw
    obtain ⟨lev, t, s⟩ := p
    have hhead := (List.pairwise_cons.mp hpw).1
    have hpw' := (List.pairwise_cons.mp hpw).2
    cases hs with
    | nil => simp [fillBodies]
    | cons q hs' =>
      obtain ⟨lev2, t2, s2⟩ := q
      simp only [fillBodies]
      refine List.Pairwise.cons ?_ (ih hpw')
      intro y hy
      have hss2 : s < s2 := by
        have h := hhead (lev2, t2, s2) (by simp)
        exact h
      have hge : ∀ p ∈ (lev2, t2, s2) :: hs', s2 ≤ p.2.2 := by
        intro p hp
        rcases List.mem_cons.mp hp with h1 | h2
        · rw [h1]
        · have h : s2 < p.2.2 := (List.pairwise_cons.mp hpw').1 p h2
          omega
      have hys : s2 ≤ y.start_line :=
        fillBodies_start_ge lines ((lev2, t2, s2) :: hs') s2 hge y hy
      have hlen : (sliceL lines s s2).length ≤ s2 - s := List.length_take_le _ _
      show s + (sliceL lines s s2).length ≤ y.start_line
      omega

theorem fillBodies_sorted (lines : List RStr) (hs : List (Nat × RStr × Nat))
    (hpw : List.Pairwise (fun x y : Nat × RStr × Nat => x.2.2 < y.2.2) hs) :
    List.Pairwise (fun a b : SectionLines => a.start_line < b.start_line)
      (fillBodies lines hs) := by
  have h1 : List.Pairwise (fun x y : Nat => x < y)
      ((fillBodies lines hs).map SectionLines.start_line) := by
    rw [fillBodies_starts lines hs]
    exact (List.pairwise_map).mpr hpw
  exact (List.pairwise_map).mp h1

theorem extractSectionsL_sorted (lines : List RStr) :
    List.Pairwise (fun a b : SectionLines => a.start_line < b.start_line)
      (extractSectionsL lines) := by
  unfold extractSectionsL
  cases hscan : scanHeadings lines with
  | nil => simp [fillBodies, introStep]
  | cons p hs =>
    obtain ⟨lev, t, s⟩ := p
    have hpw := scanHeadingsAux_pairwise lines 0 false
    have hscan' : scanHeadingsAux lines 0 false = (lev, t, s) :: hs := hscan
    rw [hscan'] at hpw
    have hfbp := fillBodies_sorted lines ((lev, t, s) :: hs) hpw
    obtain ⟨body, hfb⟩ := fillBodies_cons_head lines lev t s hs
    rw [hfb]
    rw [hfb] at hfbp
    simp only [introStep]
    by_cases hcond : 0 < (SectionLines.mk lev t body s).start_line ∧
        trimL (joinNL (sliceL lines 0 (SectionLines.mk lev t body s).start_line)) ≠ []
    · rw [if_pos hcond]
      refine List.Pairwise.cons ?_ hfbp
      intro y hy
      have hge : ∀ p ∈ (lev, t, s) :: hs, s ≤ p.2.2 := by
        intro p hp
        rcases List.mem_cons.mp hp with h1 | h2
        · rw [h1]
        · have h : s < p.2.2 := (List.pairwise_cons.mp hpw).1 p h2
          omega
      have hy' : s ≤ y.start_line := by
        rcases List.mem_cons.mp hy with h1 | h2
        · rw [h1]
        · have := fillBodies_start_ge lines ((lev, t, s) :: hs) s hge y (by rw [hfb]; simp [h2])
          exact this
      have hs0 : 0 < s := hcond.1
      show (0 : Nat) < y.start_line
      omega
    · rw [if_neg hcond]
      exact hfbp

theorem extractSectionsL_overlap (lines : List RStr) :
    List.Pairwise
      (fun a b : SectionLines => a.start_line + a.body.length ≤ b.start_line)
      (extractSectionsL lines) := by
  unfold extractSectionsL
  cases hscan : scanHeadings lines with
  | nil => simp [fillBodies, introStep]
  | cons p hs =>
    obtain ⟨lev, t, s⟩ := p
    have hpw := scanHeadingsAux_pairwise lines 0 false
    have hscan' : scanHeadingsAux lines 0 false = (lev, t, s) :: hs := hscan
    rw [hscan'] at hpw
    have hfbp := fillBodies_overlap lines ((lev, t, s) :: hs) hpw
    obtain ⟨body, hfb⟩ := fillBodies_cons_head lines lev t s hs
    rw [hfb]
    rw [hfb] at hfbp
    simp only [introStep]
    by_cases hcond : 0 < (SectionLines.mk lev t body s).start_line ∧
        trimL (joinNL (sliceL lines 0 (SectionLines.mk lev t body s).start_line)) ≠ []
    · rw [if_pos hcond]
      refine List.Pairwise.cons ?_ hfbp
      intro y hy
      have hge : ∀ p ∈ (lev, t, s) :: hs, s ≤ p.2.2 := by
        intro p hp
        rcases List.mem_cons.mp hp with h1 | h2
        · rw [h1]
        · have h : s < p.2.2 := (List.pairwise_cons.mp hpw).1 p h2
          omega
      have hy' : s ≤ y.start_line := by
        rcases List.mem_cons.mp hy with h1 | h2
        · rw [h1]
        · have := fillBodies_start_ge lines ((lev, t, s) :: hs) s hge y (by rw [hfb]; simp [h2])
          exact this
      have hlen : (sliceL lines 0 s).length ≤ s := by
        have hlt := List.length_take_le (s - 0) (lines.drop 0)
        simp only [sliceL]
        omega
      show 0 + (sliceL lines 0 s).length ≤ y.start_line
      omega
    · rw [if_neg hcond]
      exact hfbp

theorem extractSectionsL_flatten (lines : List RStr) (h : introOK lines = true) :
    (if extractSectionsL lines = [] then [lines]
      else (extractSectionsL lines).map SectionLines.body).flatten = lines := by
  cases hscan : scanHeadings lines with
  | nil =>
    have hnil : extractSectionsL lines = [] := by
      unfold extractSectionsL
      rw [hscan]
      rfl
    rw [hnil]
    simp
  | cons p hs =>
    obtain ⟨lev, t, s⟩ := p
    have hpw := scanHeadingsAux_pairwise lines 0 false
    have hscan' : scanHeadingsAux lines 0 false = (lev, t, s) :: hs := hscan
    rw [hscan'] at hpw
    have hchain : List.Chain' (fun a b : Nat × RStr × Nat => a.2.2 ≤ b.2.2)
        ((lev, t, s) :: hs) :=
      (List.Pairwise.chain' hpw).imp (fun a b hab => le_of_lt hab)
    have hjoin := fillBodies_join lines hs lev t s hchain
    obtain ⟨body, hfb⟩ := fillBodies_cons_head lines lev t s hs
    have hintroOK : s = 0 ∨ trimL (joinNL (sliceL lines 0 s)) ≠ [] := by
      have h' := h
      unfold introOK at h'
      rw [hscan] at h'
      exact of_decide_eq_true h'
    have hL : extractSectionsL lines =
        introStep lines (⟨lev, t, body, s⟩ :: fillBodies lines hs) := by
      unfold extractSectionsL
      rw [hscan, hfb]
    by_cases hpos : 0 < s
    · have hnb : trimL (joinNL (sliceL lines 0 s)) ≠ [] := by
        rcases hintroOK with h0 | hnb
        · omega
        · exact hnb
      have hintro : introStep lines (⟨lev, t, body, s⟩ :: fillBodies lines hs) =
          ⟨0, "Introduction".toList, sliceL lines 0 s, 0⟩ ::
            ⟨lev, t, body, s⟩ :: fillBodies lines hs := by
        simp only [introStep]
        rw [if_pos ⟨hpos, hnb⟩]
      rw [hL, hintro, if_neg (by simp)]
      simp only [List.map_cons, List.flatten_cons]
      have hrest : body ++ ((fillBodies lines hs).map SectionLines.body).flatten =
          lines.drop s := by
        have h0 := hjoin
        rw [hfb] at h0
        simpa using h0
      show sliceL lines 0 s ++ (body ++ ((fillBodies lines hs).map SectionLines.body).flatten)
          = lines
      rw [hrest]
      have hsl := sliceL_append_drop lines 0 s (by omega)
      simpa using hsl
    · have hs0 : s = 0 := by omega
      subst hs0
      have hnointro : introStep lines (⟨lev, t, body, 0⟩ :: fillBodies lines hs) =
          ⟨lev, t, body, 0⟩ :: fillBodies lines hs := by
        simp only [introStep]
        rw [if_neg (fun hc => absurd hc.1 (by omega))]
      rw [hL, hnointro, if_neg (by simp)]
      have h0 := hjoin
      rw [hfb] at h0
      simpa using h0

/-- C2 counterexample: for the document made of a whitespace-only line followed
by a heading, the blank pre-heading span is silently dropped (no introduction
section), so the section bodies do not reconstruct the document's lines. -/
theorem extract_sections_partition_counterexample :
    (sectionLineBodies "  \n# A".toList).flatten ≠ rustLinesL "  \n# A".toList := by
  decide

/-- C2 amended: the concatenated section bodies reconstruct the document's
line sequence whenever the span before the first heading is empty or
non-blank (a blank-only span is dropped); unconditionally, the sections are
strictly ordered by start line and no two sections overlap. -/
theorem extract_sections_partition (D : RStr) :
    (introOK (rustLinesL D) = true →
      (sectionLineBodies D).flatten = rustLinesL D) ∧
    List.Pairwise (fun a b => a.start_line < b.start_line) (extract_sections D) ∧
    List.Pairwise (fun a b => a.start_line + a.body.length ≤ b.start_line)
      (extractSectionsL (rustLinesL D)) := by
  refine ⟨fun h => ?_, ?_, extractSectionsL_overlap (rustLinesL D)⟩
  · exact extractSectionsL_flatten (rustLinesL D) h
  · rw [extract_sections_eq]
    by_cases hnil : extractSectionsL (rustLinesL D) = []
    · rw [if_pos hnil]
      simp
    · rw [if_neg hnil]
      have hsorted := extractSectionsL_sorted (rustLinesL D)
      exact (List.pairwise_map).mpr hsorted

/-- Witness for C2 amended at a concrete document with a non-blank
introduction span. -/
theorem extract_sections_partition_witness :
    (sectionLineBodies "intro\n# A\nbody\n".toList).flatten =
      rustLinesL "intro\n# A\nbody\n".toList :=
  (extract_sections_partition "intro\n# A\nbody\n".toList).1 (by decide)

/-- C1 counterexample: the schedule in which the writer's content write lands
before the reader starts and its path write lands after the reader finishes
respects the per-field mutexes of the source, yet the reader observes the new
content paired with the old path — a pair no single update ever wrote. -/
theorem torn_read_counterexample :
    schedOK [LockEv.wC, LockEv.rC, LockEv.rP, LockEv.wP] = true ∧
    runSched ⟨"old content".toList, "/old/path.md".toList⟩
        ⟨"new content".toList, "/new/path.md".toList⟩
        [LockEv.wC, LockEv.rC, LockEv.rP, LockEv.wP] =
      (some "new content".toList, some "/old/path.md".toList) ∧
    (some "new content".toList, some "/old/path.md".toList) ≠
      (some "old content".toList, some "/old/path.md".toList) ∧
    (some "new content".toList, some "/old/path.md".toList) ≠
      (some "new content".toList, some "/new/path.md".toList) := by
  decide

/-- C1 amended: under the source's per-field locking (one mutex per field,
the writer updating content and path in separate critical sections), each
field value a reader observes is a complete value from the initial state or
from the update — no partial field write is visible — but the observed
content/path pair need not come from one single update. -/
theorem per_field_atomicity (init newV : PairState) (sched : List LockEv)
    (h : schedOK sched = true) :
    ((runSched init newV sched).1 = some init.content ∨
      (runSched init newV sched).1 = some newV.content) ∧
    ((runSched init newV sched).2 = some init.path ∨
      (runSched init newV sched).2 = some newV.path) := by
  rcases sched with _ | ⟨a, _ | ⟨b, _ | ⟨c, _ | ⟨d, _ | ⟨e, tl⟩⟩⟩⟩⟩
  case nil =>
    exact absurd h (by decide)
  case cons.cons.cons.cons.cons =>
    exfalso
    have h' := h
    simp only [schedOK, Bool.and_eq_true, decide_eq_true_eq] at h'
    have hlen := h'.1.1.1.1.1.1.1
    simp only [List.length_cons] at hlen
    omega
  all_goals
    try
      (exfalso
       have h' := h
       simp only [schedOK, Bool.and_eq_true, decide_eq_true_eq] at h'
       have hlen := h'.1.1.1.1.1.1.1
       simp only [List.length_cons, List.length_nil] at hlen
       omega)
  cases a <;> cases b <;> cases c <;> cases d <;>
    first
      | exact absurd h (by decide)
      | simp [runSched, lockStep, List.foldl]

/-- Witness for C1 amended at the torn schedule: both observed fields are
complete values. -/
theorem per_field_atomicity_witness :
    ((runSched ⟨"old content".toList, "/old/path.md".toList⟩
        ⟨"new content".toList, "/new/path.md".toList⟩
        [LockEv.wC, LockEv.rC, LockEv.rP, LockEv.wP]).1 = some "old content".toList ∨
      (runSched ⟨"old content".toList, "/old/path.md".toList⟩
        ⟨"new content".toList, "/new/path.md".toList⟩
        [LockEv.wC, LockEv.rC, LockEv.rP, LockEv.wP]).1 = some "new content".toList) ∧
    ((runSched ⟨"old content".toList, "/old/path.md".toList⟩
        ⟨"new content".toList, "/new/path.md".toList⟩
        [LockEv.wC, LockEv.rC, LockEv.rP, LockEv.wP]).2 = some "/old/path.md".toList ∨
      (runSched ⟨"old content".toList, "/old/path.md".toList⟩
        ⟨"new content".toList, "/new/path.md".toList⟩
        [LockEv.wC, LockEv.rC, LockEv.rP, LockEv.wP]).2 = some "/new/path.md".toList) :=
  per_field_atomicity ⟨"old content".toList, "/old/path.md".toList⟩
    ⟨"new content".toList, "/new/path.md".toList⟩
    [LockEv.wC, LockEv.rC, LockEv.rP, LockEv.wP] (by decide)

theorem handleSocketMessage_cases (fsys : FileSys) (st : AppState) (msg : RStr) :
    (handleSocketMessage fsys st msg).1 = st ∨
    (handleSocketMessage fsys st msg).2 = SockOutcome.updated := by
  unfold handleSocketMessage
  split
  · exact Or.inl rfl
  · split
    · exact Or.inl rfl
    · split
      · exact Or.inl rfl
      · split
        · exact Or.inl rfl
        · split
          · exact Or.inl rfl
          · exact Or.inr rfl

theorem handleSocketMessage_frame (fsys : FileSys) (st : AppState) (msg : RStr)
    (h : (handleSocketMessage fsys st msg).2 ≠ SockOutcome.updated) :
    (handleSocketMessage fsys st msg).1 = st :=
  (handleSocketMessage_cases fsys st msg).resolve_right h

theorem handleSocketMessage_updated (fsys : FileSys) (st : AppState) (msg : RStr)
    (st1 : AppState)
    (h : handleSocketMessage fsys st msg = (st1, SockOutcome.updated)) :
    ∃ cpath newContent,
      fsys.canonicalize msg = some cpath ∧
      fsys.readToString cpath = some newContent ∧
      trimL newContent ≠ [] ∧
      st1 = { st with
        content := newContent
        file_path := cpath
        file_name := (fileNameOf cpath).getD "Glance".toList
        is_large_file :=
          decide (fsys.fileSize cpath > LARGE_FILE_THRESHOLD) && !st.no_truncate } := by
  unfold handleSocketMessage at h
  split at h
  · simp at h
  · split at h
    · simp at h
    · split at h
      · simp at h
      · rename_i cpath hcanon
        split at h
        · simp at h
        · rename_i newContent hread
          split at h
          · simp at h
          · rename_i htrim
            simp only [Prod.mk.injEq] at h
            exact ⟨cpath, newContent, hcanon, hread, htrim, h.1.symm⟩

/-- C5: the socket server validates every forwarded path — existence, allowed
extension, canonicalization — then reads it and rejects blank content; on any
outcome other than an update the Document State is entirely unchanged, a
forwarded existing readable non-blank `.md` file updates the state from the
canonical path, and a dropped message leaves the rest of the server loop
exactly as if the message had never arrived. -/
theorem handleSocketMessage_spec (fsys : FileSys) (st : AppState) (msg : RStr) :
    ((handleSocketMessage fsys st msg).2 ≠ SockOutcome.updated →
      (handleSocketMessage fsys st msg).1 = st) ∧
    (fsys.pathExists msg = false →
      handleSocketMessage fsys st msg = (st, SockOutcome.notFound)) ∧
    (fsys.pathExists msg = true → allowedExtension msg = false →
      handleSocketMessage fsys st msg = (st, SockOutcome.badExtension)) ∧
    (fsys.pathExists msg = true → allowedExtension msg = true →
      fsys.canonicalize msg = none →
      handleSocketMessage fsys st msg = (st, SockOutcome.canonFailed)) ∧
    (∀ cpath c, fsys.pathExists msg = true →
      (extensionOf msg).map toLowerStr = some "md".toList →
      fsys.canonicalize msg = some cpath →
      fsys.readToString cpath = some c →
      trimL c ≠ [] →
      (handleSocketMessage fsys st msg).2 = SockOutcome.updated ∧
        (handleSocketMessage fsys st msg).1.content = c ∧
        (handleSocketMessage fsys st msg).1.file_path = cpath ∧
        (handleSocketMessage fsys st msg).1.file_name =
          (fileNameOf cpath).getD "Glance".toList ∧
        (handleSocketMessage fsys st msg).1.is_large_file =
          (decide (fsys.fileSize cpath > LARGE_FILE_THRESHOLD) && !st.no_truncate)) ∧
    (∀ msgs, (handleSocketMessage fsys st msg).2 ≠ SockOutcome.updated →
      serverRun fsys st (msg :: msgs) = serverRun fsys st msgs) := by
  refine ⟨handleSocketMessage_frame fsys st msg, ?_, ?_, ?_, ?_, ?_⟩
  · intro hex
    unfold handleSocketMessage
    simp [hex]
  · intro hex hext
    unfold handleSocketMessage
    simp [hex, hext]
  · intro hex hext hcanon
    unfold handleSocketMessage
    simp [hex, hext, hcanon]
  · intro cpath c h1 h2 h3 h4 h5
    have hext : allowedExtension msg = true := by
      simp [allowedExtension, h2]
    have heq : handleSocketMessage fsys st msg =
        ({ st with
            content := c
            file_path := cpath
            file_name := (fileNameOf cpath).getD "Glance".toList
            is_large_file :=
              decide (fsys.fileSize cpath > LARGE_FILE_THRESHOLD) && !st.no_truncate },
          SockOutcome.updated) := by
      unfold handleSocketMessage
      rw [h1, hext, h3]
      simp [h4, h5]
    rw [heq]
    exact ⟨rfl, rfl, rfl, rfl, rfl⟩
  · intro msgs hne
    show serverRun fsys (handleSocketMessage fsys st msg).1 msgs = serverRun fsys st msgs
    rw [handleSocketMessage_frame fsys st msg hne]

/-- Witness for C5: forwarding the existing non-blank markdown file of the
demo file system updates the state, while forwarding its text file is
rejected with the state unchanged. -/
theorem handleSocketMessage_spec_witness :
    (handleSocketMessage fsysDemo stDemo "/docs/notes.md".toList).2 =
        SockOutcome.updated ∧
      (handleSocketMessage fsysDemo stDemo "/docs/notes.md".toList).1.content =
        "# hi\nbody".toList ∧
      (handleSocketMessage fsysDemo stDemo "/docs/notes.md".toList).1.file_path =
        "/docs/notes.md".toList ∧
      handleSocketMessage fsysDemo stDemo "/docs/plain.txt".toList =
        (stDemo, SockOutcome.badExtension) := by
  have h := (handleSocketMessage_spec fsysDemo stDemo "/docs/notes.md".toList).2.2.2.2.1
    "/docs/notes.md".toList "# hi\nbody".toList
    (by decide) (by decide) (by decide) (by decide) (by decide)
  have htxt := (handleSocketMessage_spec fsysDemo stDemo "/docs/plain.txt".toList).2.2.1
    (by decide) (by decide)
  exact ⟨h.1, h.2.1, h.2.2.1, htxt⟩

theorem watchCycle_eq (fsys : FileSys) (current_path : RStr) (st : AppState) :
    watchCycle fsys current_path st =
      match fsys.readToString st.file_path with
      | some newContent =>
        if !(trimL newContent = []) then ({ st with content := newContent }, true)
        else (st, false)
      | none => (st, false) := rfl

/-- C8: a watch-triggered re-read changes only the content field — path,
display name, size class and the no-truncate setting are untouched — and
emits the change notification exactly on success; on a failed read or blank
content the whole state is unchanged, no notification is emitted, and the
watch loop goes on processing later events from the unchanged state. -/
theorem watchCycle_spec (fsys : FileSys) (current_path : RStr) (st : AppState) :
    ((watchCycle fsys current_path st).1.file_path = st.file_path ∧
      (watchCycle fsys current_path st).1.file_name = st.file_name ∧
      (watchCycle fsys current_path st).1.is_large_file = st.is_large_file ∧
      (watchCycle fsys current_path st).1.no_truncate = st.no_truncate) ∧
    (∀ c, fsys.readToString st.file_path = some c → trimL c ≠ [] →
      (watchCycle fsys current_path st).1 = { st with content := c } ∧
      (watchCycle fsys current_path st).2 = true) ∧
    (∀ c, fsys.readToString st.file_path = some c → trimL c = [] →
      watchCycle fsys current_path st = (st, false)) ∧
    (fsys.readToString st.file_path = none →
      watchCycle fsys current_path st = (st, false)) ∧
    (∀ fss, (watchCycle fsys current_path st).1 = st →
      watchRun current_path st (fsys :: fss) = watchRun current_path st fss) := by
  refine ⟨?_, ?_, ?_, ?_, ?_⟩
  · rw [watchCycle_eq]
    cases hread : fsys.readToString st.file_path with
    | none => exact ⟨rfl, rfl, rfl, rfl⟩
    | some c =>
      by_cases htrim : trimL c = []
      · simp [htrim]
      · simp [htrim]
  · intro c hc htrim
    rw [watchCycle_eq, hc]
    simp [htrim]
  · intro c hc htrim
    rw [watchCycle_eq, hc]
    simp [htrim]
  · intro hnone
    rw [watchCycle_eq, hnone]
  · intro fss hst
    show watchRun current_path (watchCycle fsys current_path st).1 fss =
      watchRun current_path st fss
    rw [hst]

/-- Witness for C8: a change event on the demo file re-reads it and replaces
only the content, leaving path, name and size class alone. -/
theorem watchCycle_spec_witness :
    (watchCycle fsysDemo "/docs/notes.md".toList
        ⟨"stale".toList, "/docs/notes.md".toList, "notes.md".toList, true, false⟩).1 =
      ⟨"# hi\nbody".toList, "/docs/notes.md".toList, "notes.md".toList, true, false⟩ ∧
    (watchCycle fsysDemo "/docs/notes.md".toList
        ⟨"stale".toList, "/docs/notes.md".toList, "notes.md".toList, true, false⟩).2 =
      true := by
  have h := (watchCycle_spec fsysDemo "/docs/notes.md".toList
      ⟨"stale".toList, "/docs/notes.md".toList, "notes.md".toList, true, false⟩).2.1
    "# hi\nbody".toList (by decide) (by decide)
  exact ⟨h.1, h.2⟩

/-- C10: the event handler of the watch loop re-reads the path stored in
shared Document State at handling time, never the path the watcher was
subscribed to: the handled cycle is literally independent of the subscribed
path, and after a retarget (a successful forwarded-request update) the
content written comes from the newly opened canonical path. -/
theorem watch_reads_current_state_path (fsys fsys2 : FileSys) (st st1 : AppState)
    (msg oldSub newSub c : RStr)
    (hupd : handleSocketMessage fsys st msg = (st1, SockOutcome.updated))
    (hread : fsys2.readToString st1.file_path = some c)
    (hnb : trimL c ≠ []) :
    watchCycle fsys2 oldSub st1 = watchCycle fsys2 newSub st1 ∧
    (watchCycle fsys2 oldSub st1).1.content = c ∧
    fsys.canonicalize msg = some st1.file_path := by
  refine ⟨rfl, ?_, ?_⟩
  · rw [watchCycle_eq, hread]
    simp [hnb]
  · obtain ⟨cpath, newContent, hcanon, _, _, hst1⟩ :=
      handleSocketMessage_updated fsys st msg st1 hupd
    rw [hst1]
    exact hcanon

/-- Witness for C10: after the demo retarget from the old file to the notes
file, the next handled event — with the watcher still subscribed to the old
path — writes the notes file's content. -/
theorem watch_reads_current_state_path_witness :
    (watchCycle fsysDemo "/docs/old.md".toList
        (handleSocketMessage fsysDemo stDemo "/docs/notes.md".toList).1).1.content =
      "# hi\nbody".toList := by
  have h := watch_reads_current_state_path fsysDemo fsysDemo stDemo
    (handleSocketMessage fsysDemo stDemo "/docs/notes.md".toList).1
    "/docs/notes.md".toList "/docs/old.md".toList "/docs/notes.md".toList
    "# hi\nbody".toList (by decide) (by decide) (by decide)
  exact h.2.1

theorem cliMain_load (env : CliEnv) (args : List RStr)
    (hflag : ∀ a, args[1]? = some a → a ≠ "--help".toList ∧ a ≠ "-h".toList ∧
      a ≠ "--version".toList ∧ a ≠ "-v".toList) :
    cliMain env args = cliLoad env args := by
  unfold cliMain
  cases h1 : args[1]? with
  | none => rfl
  | some a =>
    obtain ⟨hh, hh2, hv, hv2⟩ := hflag a h1
    simp at hh hh2 hv hv2
    simp [hh, hh2, hv, hv2]

/-- C9: with no running daemon, a CLI launch whose file argument does not
exist prints to the error stream and exits with status 1, and one whose file
content is blank after trimming likewise prints an error and exits 1; in both
cases no daemon state is created. -/
theorem cliMain_fatal_errors (env : CliEnv) (args : List RStr) (pathArg : RStr)
    (hd : env.daemonReceives = false)
    (hfind : (args.drop 1).find? notFlagArg = some pathArg)
    (hflag : ∀ a, args[1]? = some a → a ≠ "--help".toList ∧ a ≠ "-h".toList ∧
      a ≠ "--version".toList ∧ a ≠ "-v".toList) :
    (env.fsys.pathExists (absolutize env pathArg) = false →
      cliMain env args = CliOutcome.notFoundExit ∧
      printsToErrorStream (cliMain env args) = true ∧
      cliExitCode (cliMain env args) = some 1 ∧
      isStartDaemon (cliMain env args) = false) ∧
    (∀ c, env.fsys.pathExists (absolutize env pathArg) = true →
      env.fsys.readToString (absolutize env pathArg) = some c →
      trimL c = [] →
      cliMain env args = CliOutcome.emptyExit ∧
      printsToErrorStream (cliMain env args) = true ∧
      cliExitCode (cliMain env args) = some 1 ∧
      isStartDaemon (cliMain env args) = false) := by
  have hmain := cliMain_load env args hflag
  constructor
  · intro hex
    have hload : cliLoad env args = CliOutcome.notFoundExit := by
      unfold cliLoad
      rw [hfind]
      simp [hex]
    rw [hmain, hload]
    exact ⟨rfl, rfl, rfl, rfl⟩
  · intro c hex hread htrim
    have hload : cliLoad env args = CliOutcome.emptyExit := by
      unfold cliLoad
      rw [hfind]
      simp [hex, hd, hread, htrim]
    rw [hmain, hload]
    exact ⟨rfl, rfl, rfl, rfl⟩

/-- Witness for C9: launching on a path the demo file system does not have
exits with status 1 before any daemon state exists. -/
theorem cliMain_fatal_errors_witness :
    cliMain envDemo ["glance".toList, "/docs/missing.md".toList] =
        CliOutcome.notFoundExit ∧
      cliExitCode (cliMain envDemo ["glance".toList, "/docs/missing.md".toList]) =
        some 1 ∧
      isStartDaemon (cliMain envDemo ["glance".toList, "/docs/missing.md".toList]) =
        false := by
  have h := (cliMain_fatal_errors envDemo
      ["glance".toList, "/docs/missing.md".toList] "/docs/missing.md".toList
      rfl (by decide)
      (by
        intro a ha
        simp at ha
        subst ha
        exact ⟨by decide, by decide, by decide, by decide⟩)).1 (by decide)
  exact ⟨h.1, h.2.2.1, h.2.2.2⟩
